import Mathlib

/-
Verification development for the CO-Bench heuristic-evaluation harness.

The Python sources are shallowly embedded:
- `evaluation/controller.py` (task registry, directory listings, problem
  loading) is translated definition by definition; what the functions read
  from the file system or obtain from Python's import machinery is passed
  in explicitly as a `TaskEnv` record.
- `scripts/evaluate_code.py` and `scripts/get_problem.py` have their
  argument validation and control flow embedded as step functions on
  argument records.
- the evaluator (`Evaluator.evaluate` / `Feedback`), whose module is not
  among the provided sources, is modelled from the specification text
  (sections 3, 4, 7 of the spec); those definitions carry doc comments
  starting with "Modelled from the spec:".

Machine strings are modelled as Lean `String`s; Python string comparison,
`endswith`, and substring tests are modelled on the character lists
(`String.data`), matching Python's code-point semantics.
-/

/-- Lexicographic order on character lists by code point, the order Python's
`sorted` uses for strings. Defined as a Bool so that it evaluates. -/
def lexLe : List Char → List Char → Bool
  | [], _ => true
  | _ :: _, [] => false
  | a :: as, b :: bs =>
    if a.toNat < b.toNat then true
    else if b.toNat < a.toNat then false
    else lexLe as bs

/-- String comparison by code points, as Python compares strings. -/
def strLe (a b : String) : Bool := lexLe a.data b.data

/-- Insertion step of the model of Python's `sorted`. -/
def insertSorted (a : String) : List String → List String
  | [] => [a]
  | b :: t => if strLe a b then a :: b :: t else b :: insertSorted a t

/-- Model of Python's `sorted` on lists of strings (insertion sort; we only
rely on the output being a sorted permutation of the input, which `sorted`
guarantees). -/
def sortStrings : List String → List String
  | [] => []
  | a :: t => insertSorted a (sortStrings t)

theorem lexLe_total (a b : List Char) : lexLe a b = true ∨ lexLe b a = true := by
  induction a generalizing b with
  | nil => left; rfl
  | cons x xs ih =>
    cases b with
    | nil => right; rfl
    | cons y ys =>
      by_cases hxy : x.toNat < y.toNat
      · left; simp [lexLe, hxy]
      · by_cases hyx : y.toNat < x.toNat
        · right; simp [lexLe, hyx]
        · rcases ih ys with h | h
          · left; simp [lexLe, hxy, hyx, h]
          · right; simp [lexLe, hxy, hyx, h]

theorem lexLe_trans {a b c : List Char} (hab : lexLe a b = true)
    (hbc : lexLe b c = true) : lexLe a c = true := by
  induction a generalizing b c with
  | nil => rfl
  | cons x xs ih =>
    cases b with
    | nil => simp [lexLe] at hab
    | cons y ys =>
      cases c with
      | nil => simp [lexLe] at hbc
      | cons z zs =>
        simp only [lexLe] at hab hbc ⊢
        by_cases hxy : x.toNat < y.toNat
        · by_cases hyz : y.toNat < z.toNat
          · simp [Nat.lt_trans hxy hyz]
          · by_cases hzy : z.toNat < y.toNat
            · simp [lexLe, hyz, hzy] at hbc
            · have hyzeq : y.toNat = z.toNat :=
                Nat.le_antisymm (Nat.le_of_not_lt hzy) (Nat.le_of_not_lt hyz)
              simp [hyzeq ▸ hxy]
        · by_cases hyx : y.toNat < x.toNat
          · simp [hxy, hyx] at hab
          · have hxyeq : x.toNat = y.toNat :=
              Nat.le_antisymm (Nat.le_of_not_lt hyx) (Nat.le_of_not_lt hxy)
            by_cases hyz : y.toNat < z.toNat
            · simp [hxyeq ▸ hyz]
            · by_cases hzy : z.toNat < y.toNat
              · simp [hyz, hzy] at hbc
              · simp [hxy, hyx] at hab
                simp [hyz, hzy] at hbc
                simp [hxyeq, hyz, hzy, ih hab hbc]

theorem insertSorted_perm (a : String) (l : List String) :
    (insertSorted a l).Perm (a :: l) := by
  induction l with
  | nil => simp [insertSorted]
  | cons b t ih =>
    simp only [insertSorted]
    split
    · exact List.Perm.refl _
    · exact ((ih.cons b).trans (List.Perm.swap a b t))

theorem sortStrings_perm (l : List String) : (sortStrings l).Perm l := by
  induction l with
  | nil => exact List.Perm.refl _
  | cons a t ih =>
    exact (insertSorted_perm a (sortStrings t)).trans (ih.cons a)

theorem insertSorted_pairwise (a : String) (l : List String)
    (h : l.Pairwise (strLe · ·)) : (insertSorted a l).Pairwise (strLe · ·) := by
  induction l with
  | nil => simp [insertSorted]
  | cons b t ih =>
    simp only [insertSorted]
    rcases List.pairwise_cons.mp h with ⟨hb, ht⟩
    split
    · rename_i hab
      refine List.pairwise_cons.mpr ⟨?_, h⟩
      intro c hc
      rcases List.mem_cons.mp hc with hcb | hct
      · exact hcb ▸ hab
      · exact lexLe_trans hab (hb _ hct)
    · rename_i hab
      have hba : strLe b a = true := by
        rcases lexLe_total a.data b.data with h1 | h1
        · exact absurd h1 hab
        · exact h1
      refine List.pairwise_cons.mpr ⟨?_, ih ht⟩
      intro c hc
      rcases List.mem_cons.mp ((insertSorted_perm a t).mem_iff.mp hc) with hca | hct
      · exact hca ▸ hba
      · exact hb _ hct

theorem sortStrings_pairwise (l : List String) :
    (sortStrings l).Pairwise (strLe · ·) := by
  induction l with
  | nil => simp [sortStrings]
  | cons a t ih => exact insertSorted_pairwise a (sortStrings t) ih

theorem mem_sortStrings {x : String} {l : List String} :
    x ∈ sortStrings l ↔ x ∈ l :=
  (sortStrings_perm l).mem_iff

/-- Model of Python's `str.endswith` (character-suffix test). -/
def pyEndsWith (s suffix : String) : Bool :=
  suffix.data.isSuffixOf s.data

/-- Model of Python's substring operator `k in s` (character-infix test). -/
def containsSub (s k : String) : Bool :=
  decide (k.data <:+: s.data)

/-- Embedding of `controller.list_test_cases`: the `os.listdir` result is
passed in as `entries`; the function keeps every entry that neither ends in
".py" nor equals "__pycache__", sorted. -/
def list_test_cases (entries : List String) : List String :=
  sortStrings (entries.filter (fun f => !(pyEndsWith f ".py" || f == "__pycache__")))

/-- Name of a path given by its components, i.e. Python's `Path.name`
(last component; "" for an empty component list, which does not occur for
real files). -/
def pathName (parts : List String) : String := parts.getLastD ""

/-- POSIX rendering of a path given by its components (`Path.as_posix`,
and `str` of a relative path). -/
def posixPath (parts : List String) : String := String.intercalate "/" parts

/-- The filter of `controller.list_new_test_cases` applied to one file
found by `root.rglob("*")`, given the components of the root path and the
components of the file's path relative to the root. Mirrors the source:
the name must not be "__pycache__", must not end in ".py", no component of
the full path may end in "_sol" or "_par", and no filter key may occur in
the POSIX rendering of the full path. -/
def keepNewTestCase (rootParts : List String) (filter_key : List String)
    (relParts : List String) : Bool :=
  pathName relParts != "__pycache__"
    && !pyEndsWith (pathName relParts) ".py"
    && !(rootParts ++ relParts).any (fun part => pyEndsWith part "_sol" || pyEndsWith part "_par")
    && !filter_key.any (fun k => containsSub (posixPath (rootParts ++ relParts)) k)

/-- Embedding of `controller.list_new_test_cases`: the files found under
the root by `rglob` (with `is_file()` true) are passed in as their
root-relative component lists; the function returns the sorted root-relative
POSIX paths of the files passing `keepNewTestCase`, with the default
`filter_key=None` becoming the empty key list. -/
def list_new_test_cases (rootParts : List String) (files : List (List String))
    (filter_key : Option (List String)) : List String :=
  let fk := filter_key.getD []
  sortStrings ((files.filter (keepNewTestCase rootParts fk)).map posixPath)

/-- Embedding of `controller.TASK_LIST`, the static registry of supported
problems. -/
def TASK_LIST : List String := [
  "Aircraft landing",
  "Assignment problem",
  "Assortment problem",
  "Bin packing - one-dimensional",
  "Capacitated warehouse location",
  "Common due date scheduling",
  "Constrained guillotine cutting",
  "Constrained non-guillotine cutting",
  "Container loading",
  "Container loading with weight restrictions",
  "Corporate structuring",
  "Crew scheduling",
  "Equitable partitioning problem",
  "Euclidean Steiner problem",
  "Flow shop scheduling",
  "Generalised assignment problem",
  "Graph colouring",
  "Hybrid Reentrant Shop Scheduling",
  "Job shop scheduling",
  "MIS",
  "Multi-Demand Multidimensional Knapsack problem",
  "Multidimensional knapsack problem",
  "Open shop scheduling",
  "Packing unequal circles",
  "Packing unequal circles area",
  "Packing unequal rectangles and squares",
  "Packing unequal rectangles and squares area",
  "Resource constrained shortest path",
  "Set covering",
  "Set partitioning",
  "TSP",
  "Uncapacitated warehouse location",
  "Unconstrained guillotine cutting",
  "Vehicle routing: period routing",
  "p-median - capacitated",
  "p-median - uncapacitated"]

/-- What `get_data` / `get_new_data` obtain from the file system and
the import machinery for one task. Modelled from the spec: `import_func`
(module `evaluation/utils.py`, not among the provided sources) imports
`config.py` and returns the requested attributes, raising `AttributeError`
for an absent attribute; per spec section 6 each of `norm_score`,
`norm_time`, `get_dev` is optionally absent, so those are `Option` fields
(`none` models the attribute being absent, making `import_func` raise).
`listdir` is the `os.listdir` result for the task directory; `files` and
`rootParts` describe the `rglob` traversal for `list_new_test_cases`;
`solve_template` is the `extract_function_source` result for `solve`. -/
structure TaskEnv where
  load_data : Unit → Unit
  DESCRIPTION : String
  solve_template : String
  norm_score : Option (Rat → Rat)
  norm_time : Option (Rat → Rat)
  get_dev : Option (Unit → Option (List String))
  listdir : List String
  files : List (List String)
  rootParts : List String

/-- Embedding of the `controller.Data` dataclass. The fields whose Python
type annotations are strings but whose values are functions or lists are
given their value types. -/
structure Data where
  config_path : String
  problem : String
  solve_template : String
  problem_description : String
  test_cases : List String
  norm_score : Rat → Rat
  get_dev : Unit → Option (List String)
  task : String
  load_data : Unit → Unit
  src_dir : String
  norm_time : Rat → Rat

/-- Embedding of `controller.get_data`. Each `try: import_func ... except
AttributeError:` block becomes `Option.getD` with the same default the
source installs (`lambda x: x`, `lambda x: x`, `lambda: None`). -/
def get_data (task src_dir : String) (env : TaskEnv) : Data :=
  let config_path := src_dir ++ "/" ++ task ++ "/config.py"
  let solve_template := env.solve_template
  let test_cases := list_test_cases env.listdir
  let norm_score := env.norm_score.getD (fun x => x)
  let norm_time := env.norm_time.getD (fun x => x)
  let get_dev := env.get_dev.getD (fun _ => none)
  let problem_description :=
    env.DESCRIPTION ++ "\n\n# Implement in Solve Function\n\n" ++ solve_template
  { config_path := config_path
    task := task
    src_dir := src_dir
    load_data := env.load_data
    problem := env.DESCRIPTION
    solve_template := solve_template
    problem_description := problem_description
    test_cases := test_cases
    norm_score := norm_score
    get_dev := get_dev
    norm_time := norm_time }

/-- Embedding of `controller.get_new_data`; identical to `get_data` except
that the case list comes from `list_new_test_cases` over the data
directory and the `src_dir` field records `data_dir`. -/
def get_new_data (task src_dir data_dir : String) (filter_key : Option (List String))
    (env : TaskEnv) : Data :=
  let config_path := src_dir ++ "/" ++ task ++ "/config.py"
  let solve_template := env.solve_template
  let test_cases := list_new_test_cases env.rootParts env.files filter_key
  let norm_score := env.norm_score.getD (fun x => x)
  let norm_time := env.norm_time.getD (fun x => x)
  let get_dev := env.get_dev.getD (fun _ => none)
  let problem_description :=
    env.DESCRIPTION ++ "\n\n# Implement in Solve Function\n\n" ++ solve_template
  { config_path := config_path
    task := task
    src_dir := data_dir
    load_data := env.load_data
    problem := env.DESCRIPTION
    solve_template := solve_template
    problem_description := problem_description
    test_cases := test_cases
    norm_score := norm_score
    get_dev := get_dev
    norm_time := norm_time }

/-- Argument record produced by the `evaluate_code.py` argument parser:
`--problem` is required (a `String`), `--code` is optional, as are
`--output-dir` and `--iteration`. -/
structure EvaluateCodeArgs where
  problem : String
  code : Option String
  output_dir : Option String
  iteration : Int

/-- Terminal step reached by `evaluate_code.main` before (or instead of)
running an evaluation: which validation failed and exited with status 1,
or the point where problem data is loaded and the evaluation runs. -/
inductive ScriptStep
  | exitMissingCode
  | exitUnknownProblem (available : List String)
  | exitFileNotFound (path : String)
  | exitNoSolve
  | runEvaluation (problem : String) (code : String)
deriving DecidableEq

/-- Model of the check `"def solve(" not in code`. -/
def containsSolveDef (code : String) : Bool := containsSub code "def solve("

/-- Embedding of the control flow of `evaluate_code.main` up to the call
of `get_new_data`: validate that `--code` was given (`if not args.code:`
is Python truthiness, taken both for `None` and for the empty string),
that the problem is in `TASK_LIST`, read the code file (`readFile` models
the file system: `none` is `FileNotFoundError`), and check the code
defines `solve`. All exits carry status 1; `exitUnknownProblem` also
prints the available problem list. -/
def evaluate_code_main (args : EvaluateCodeArgs) (readFile : String → Option String) :
    ScriptStep :=
  match args.code with
  | none => ScriptStep.exitMissingCode
  | some codePath =>
    if codePath = "" then ScriptStep.exitMissingCode
    else if TASK_LIST.contains args.problem then
      match readFile codePath with
      | none => ScriptStep.exitFileNotFound codePath
      | some code =>
        if containsSolveDef code then ScriptStep.runEvaluation args.problem code
        else ScriptStep.exitNoSolve
    else ScriptStep.exitUnknownProblem TASK_LIST

/-- Argument record produced by the `get_problem.py` argument parser:
`--src-dir` has a default, `--problem` is optional (not marked required),
so `args.problem` may be Python `None`, modelled as `none`. -/
structure GetProblemArgs where
  src_dir : String
  problem : Option String

/-- Terminal step reached by `get_problem.main` before (or instead of)
loading the problem. -/
inductive GetProblemStep
  | exitUnknownProblem (available : List String)
  | loadProblem (problem : String) (src_dir : String)
deriving DecidableEq

/-- Embedding of the control flow of `get_problem.main` up to the call of
`get_new_data`: `args.problem not in TASK_LIST` exits with status 1 after
printing the available problems (Python `None` is in no string list), else
the problem is loaded from `src_dir`. -/
def get_problem_main (args : GetProblemArgs) : GetProblemStep :=
  match args.problem with
  | none => GetProblemStep.exitUnknownProblem TASK_LIST
  | some p =>
    if TASK_LIST.contains p then GetProblemStep.loadProblem p args.src_dir
    else GetProblemStep.exitUnknownProblem TASK_LIST

/-- Attribute name argparse derives for a long flag (its dest): strip the
leading "--" and replace "-" with "_". -/
def argDest (flag : String) : String :=
  String.mk ((flag.data.drop 2).map (fun c => if c = '-' then '_' else c))

/-- The attribute names defined on the namespace returned by the
`get_problem.py` parser, from its two `add_argument` calls. -/
def get_problem_arg_dests : List String := [argDest "--src-dir", argDest "--problem"]

/-- The attribute the `except` handler of `get_problem.main` reads when
formatting its error message (`args.problem_name` on line 68). -/
def get_problem_handler_attr : String := "problem_name"

/-- Outcome of running the `except` handler of `get_problem.main`. -/
inductive HandlerOutcome
  | printsErrorAndExits (status : Nat)
  | raisesAttributeError (attr : String)
deriving DecidableEq

/-- Python semantics of the handler body: reading `args.<attr>` on a
namespace that defines `attrs` prints the message and exits with status 1
when the attribute exists, and raises `AttributeError` otherwise. -/
def exceptHandlerOutcome (attrs : List String) (attr : String) : HandlerOutcome :=
  if attrs.contains attr then HandlerOutcome.printsErrorAndExits 1
  else HandlerOutcome.raisesAttributeError attr

/-- Modelled from the spec: the tagged per-case outcome of running the
candidate against one test case (spec section 3, "Case Result"):
`Success(raw_score, raw_time)`, `InvalidOutput(reason)`,
`RuntimeFailure(message)`, or `Timeout`. Raw scores and times are
rationals. -/
inductive CaseResult
  | Success (raw_score raw_time : Rat)
  | InvalidOutput (reason : String)
  | RuntimeFailure (message : String)
  | Timeout
deriving DecidableEq

/-- Whether a Case Result is a success. -/
def CaseResult.isSuccess : CaseResult → Bool
  | .Success _ _ => true
  | _ => false

/-- The failure reason a Case Result carries (`none` for success; the
fixed tag "TIMEOUT" for a timeout, which carries no message). -/
def CaseResult.reason : CaseResult → Option String
  | .Success _ _ => none
  | .InvalidOutput r => some r
  | .RuntimeFailure m => some m
  | .Timeout => some "TIMEOUT"

/-- Modelled from the spec: the Problem Configuration as the evaluator
reads it (spec section 3): ordered case-identifier list, the
problem-supplied normalization functions, the dev membership set from
`get_dev()` (`none` models Python `None`), and the feedback length bound
the evaluator was constructed with. -/
structure EvalConfig where
  cases : List String
  norm_score : Rat → Rat
  norm_time : Rat → Rat
  get_dev : Option (List String)
  feedback_length : Nat

/-- Modelled from the spec: one normalized per-case entry of the Feedback
results mapping — normalized score, normalized time, and the error message
or `none` (spec sections 3 and 6). -/
structure Normalized where
  score : Rat
  time : Rat
  error : Option String
deriving DecidableEq

/-- Modelled from the spec (section 4.3, Score Normalizer): a success is
mapped through `norm_score` and `norm_time`; every non-success outcome
gets the fixed sentinel normalized score 0 with its failure reason
preserved. -/
def normalizeResult (cfg : EvalConfig) : CaseResult → Normalized
  | .Success s t => ⟨cfg.norm_score s, cfg.norm_time t, none⟩
  | .InvalidOutput r => ⟨0, 0, some r⟩
  | .RuntimeFailure m => ⟨0, 0, some m⟩
  | .Timeout => ⟨0, 0, some "TIMEOUT"⟩

/-- Modelled from the spec (section 4.4): the dev membership set; when
`get_dev` yields nothing the policy falls back to a single partition, so
the dev set is empty. -/
def devSet (cfg : EvalConfig) : List String := cfg.get_dev.getD []

/-- Modelled from the spec (section 4.4, Partitioner): cases in the
`get_dev` set are dev. -/
def devCases (cfg : EvalConfig) : List String :=
  cfg.cases.filter (fun c => (devSet cfg).contains c)

/-- Modelled from the spec (section 4.4, Partitioner): all other cases
are test. -/
def testCases (cfg : EvalConfig) : List String :=
  cfg.cases.filter (fun c => !(devSet cfg).contains c)

/-- Modelled from the spec (section 4.4): unweighted mean of a score
list, with the defined value 0 for an empty partition. -/
def meanScore (l : List Rat) : Rat :=
  if l.length = 0 then 0 else l.sum / (l.length : Rat)

/-- Modelled from the spec (section 4.5): deterministic truncation keeping
the first `n` characters of a message. -/
def truncateMsg (n : Nat) (s : String) : String := String.mk (s.data.take n)

/-- Modelled from the spec (section 4.5): the failure-message portion of a
case line — empty on success, the truncated message on failure. -/
def caseErrText (n : Nat) (r : Normalized) : String :=
  match r.error with
  | none => ""
  | some e => truncateMsg n e

/-- Modelled from the spec (section 4.5): one rendered per-case line —
case identifier, normalized score or the ERROR marker, and on failure the
bounded message. -/
def caseLine (n : Nat) (c : String) (r : Normalized) : String :=
  match r.error with
  | none => c ++ ": score " ++ toString r.score
  | some _ => c ++ ": ERROR " ++ caseErrText n r

/-- Modelled from the spec: a load failure, the one error class visible to
the caller of `evaluate` (spec section 7); carries the diagnostic
message. -/
def LoadError := String

/-- Modelled from the spec (sections 3 and 4.1): the candidate source as
the evaluator sees it after the once-per-call load/compile step: either a
`LoadError` (no valid entry point), or the loaded entry point, abstracted
as the terminal Case Result it produces on each case identifier. That the
map is total into `CaseResult` captures that the Case Runner classifies
every runtime failure and timeout instead of letting it escape. -/
structure Candidate where
  load : Except LoadError (String → CaseResult)

/-- Modelled from the spec (section 4.2, Work Dispatcher): the per-case
results collected in the completion order `order`, keyed by case
identifier. -/
def resultsFor (cfg : EvalConfig) (run : String → CaseResult)
    (order : List String) : List (String × Normalized) :=
  order.map (fun c => (c, normalizeResult cfg (run c)))

/-- Lookup of a case's entry in the collected results, as the aggregation
and the feedback composer read them (keyed by identifier, insensitive to
collection order). -/
def resOf (results : List (String × Normalized)) (c : String) : Normalized :=
  (results.lookup c).getD ⟨0, 0, some "missing"⟩

/-- Modelled from the spec (sections 3 and 6): the Feedback record — the
overall score, the two partition scores, the two partition feedback texts,
and the per-case mapping. -/
structure Feedback where
  score : Rat
  dev_score : Rat
  test_score : Rat
  dev_feedback : String
  test_feedback : String
  results : List (String × Normalized)

/-- Modelled from the spec (sections 4.4, 4.5): aggregate the collected
results into a Feedback — partition the configured cases, average each
partition's normalized scores, render each partition's text as the
concatenation of its case lines, and report the test-partition score as
the overall score (the declared combination policy of section 4.4). -/
def composeFeedback (cfg : EvalConfig) (results : List (String × Normalized)) :
    Feedback :=
  let dev := devCases cfg
  let tst := testCases cfg
  let devScores := dev.map (fun c => (resOf results c).score)
  let tstScores := tst.map (fun c => (resOf results c).score)
  let dev_feedback :=
    String.intercalate "\n" (dev.map (fun c => caseLine cfg.feedback_length c (resOf results c)))
  let test_feedback :=
    String.intercalate "\n" (tst.map (fun c => caseLine cfg.feedback_length c (resOf results c)))
  { score := meanScore tstScores
    dev_score := meanScore devScores
    test_score := meanScore tstScores
    dev_feedback := dev_feedback
    test_feedback := test_feedback
    results := results }

/-- Modelled from the spec: the full evaluation of a loaded candidate with
the dispatcher completing cases in the order `order` (a permutation of the
configured cases; section 4.2 leaves the order unspecified). -/
def evaluateWithOrder (cfg : EvalConfig) (run : String → CaseResult)
    (order : List String) : Feedback :=
  composeFeedback cfg (resultsFor cfg run order)

/-- Modelled from the spec (section 4.6, Evaluator Facade):
`evaluate(code) -> Feedback`, failing only with a `LoadError`; a loaded
candidate is run on every configured case and the results aggregated. -/
def evaluate (cfg : EvalConfig) (cand : Candidate) : Except LoadError Feedback :=
  match cand.load with
  | .error e => .error e
  | .ok run => .ok (evaluateWithOrder cfg run cfg.cases)

theorem lookup_resultsFor (cfg : EvalConfig) (run : String → CaseResult)
    (order : List String) (c : String) (hc : c ∈ order) :
    (resultsFor cfg run order).lookup c = some (normalizeResult cfg (run c)) := by
  induction order with
  | nil => cases hc
  | cons a t ih =>
    simp only [resultsFor, List.map_cons, List.lookup]
    by_cases hca : c = a
    · subst hca
      simp
    · have hbeq : (c == a) = false := by simp [hca]
      rw [hbeq]
      exact ih (by rcases List.mem_cons.mp hc with h | h; exact absurd h hca; exact h)

theorem map_fst_resultsFor (cfg : EvalConfig) (run : String → CaseResult)
    (order : List String) :
    (resultsFor cfg run order).map Prod.fst = order := by
  induction order with
  | nil => rfl
  | cons a t ih => simp [resultsFor] at ih ⊢; exact ih

theorem results_composeFeedback (cfg : EvalConfig)
    (results : List (String × Normalized)) :
    (composeFeedback cfg results).results = results := rfl

theorem resOf_perm (cfg : EvalConfig) (run : String → CaseResult)
    {o : List String} (h : o.Perm cfg.cases) {c : String} (hc : c ∈ cfg.cases) :
    resOf (resultsFor cfg run o) c = normalizeResult cfg (run c) := by
  have hco : c ∈ o := h.mem_iff.mpr hc
  simp [resOf, lookup_resultsFor cfg run o c hco]

/-- C1: for every Problem Configuration and every candidate whose source
loads successfully, the Feedback returned by evaluate has a results mapping
containing every configured test-case identifier exactly once, its size
equal to the number of test cases, whatever each case's outcome was. -/
theorem evaluate_results_complete (cfg : EvalConfig) (cand : Candidate)
    (run : String → CaseResult) (hload : cand.load = Except.ok run)
    (hnd : cfg.cases.Nodup) :
    ∃ fb, evaluate cfg cand = Except.ok fb ∧
      fb.results.map Prod.fst = cfg.cases ∧
      fb.results.length = cfg.cases.length ∧
      ∀ c ∈ cfg.cases, (fb.results.map Prod.fst).count c = 1 := by
  refine ⟨evaluateWithOrder cfg run cfg.cases, by simp [evaluate, hload], ?_, ?_, ?_⟩
  · simp [evaluateWithOrder, results_composeFeedback, map_fst_resultsFor]
  · simp [evaluateWithOrder, results_composeFeedback, resultsFor]
  · intro c hc
    rw [show (evaluateWithOrder cfg run cfg.cases).results.map Prod.fst = cfg.cases by
      simp [evaluateWithOrder, results_composeFeedback, map_fst_resultsFor]]
    exact List.count_eq_one_of_mem hnd hc

def cfgW : EvalConfig :=
  { cases := ["case1", "case2", "case3"]
    norm_score := fun x => x
    norm_time := fun x => x
    get_dev := some ["case1"]
    feedback_length := 8 }

def runW : String → CaseResult := fun c =>
  if c == "case3" then CaseResult.RuntimeFailure "boom" else CaseResult.Success 1 2

def candW : Candidate := ⟨Except.ok runW⟩

theorem evaluate_results_complete_witness :
    candW.load = Except.ok runW ∧ cfgW.cases.Nodup ∧
      ∃ fb, evaluate cfgW candW = Except.ok fb ∧
        fb.results.map Prod.fst = cfgW.cases ∧
        fb.results.length = cfgW.cases.length ∧
        ∀ c ∈ cfgW.cases, (fb.results.map Prod.fst).count c = 1 :=
  ⟨rfl, by decide, evaluate_results_complete cfgW candW runW rfl (by decide)⟩

/-- C2: evaluate always completes with a Feedback for a candidate that
loads: an error escapes if and only if the load itself failed, and for a
loaded candidate every per-case outcome — including every failure — is
captured, normalized, and present in the returned Feedback. -/
theorem evaluate_total_unless_load_error (cfg : EvalConfig) (cand : Candidate) :
    ((∃ e, evaluate cfg cand = Except.error e) ↔ ∃ e, cand.load = Except.error e) ∧
    (∀ run, cand.load = Except.ok run →
      evaluate cfg cand = Except.ok (evaluateWithOrder cfg run cfg.cases) ∧
      ∀ c ∈ cfg.cases,
        (evaluateWithOrder cfg run cfg.cases).results.lookup c =
          some (normalizeResult cfg (run c))) := by
  constructor
  · constructor
    · rintro ⟨e, he⟩
      cases hl : cand.load with
      | error e2 => exact ⟨e2, rfl⟩
      | ok run => simp [evaluate, hl] at he
    · rintro ⟨e, he⟩
      exact ⟨e, by simp [evaluate, he]⟩
  · intro run hl
    refine ⟨by simp [evaluate, hl], ?_⟩
    intro c hc
    rw [show (evaluateWithOrder cfg run cfg.cases).results = resultsFor cfg run cfg.cases
      from rfl]
    exact lookup_resultsFor cfg run cfg.cases c hc

theorem evaluate_total_unless_load_error_witness :
    candW.load = Except.ok runW ∧
      evaluate cfgW candW = Except.ok (evaluateWithOrder cfgW runW cfgW.cases) :=
  ⟨rfl, ((evaluate_total_unless_load_error cfgW candW).2 runW rfl).1⟩

/-- C3: for every get_dev result (including None), dev and test partitions
are disjoint, their union is the full case set, a case in the returned set
is dev and every other case is test; and a None result collapses to the
single-partition fallback (empty dev, all cases test). -/
theorem partition_disjoint_cover (cfg : EvalConfig) :
    (∀ c, c ∈ devCases cfg → c ∉ testCases cfg) ∧
    (∀ c, c ∈ cfg.cases ↔ c ∈ devCases cfg ∨ c ∈ testCases cfg) ∧
    (∀ c, c ∈ cfg.cases →
      ((devSet cfg).contains c = true → c ∈ devCases cfg) ∧
      ((devSet cfg).contains c = false → c ∈ testCases cfg)) ∧
    (cfg.get_dev = none → devCases cfg = [] ∧ testCases cfg = cfg.cases) := by
  refine ⟨?_, ?_, ?_, ?_⟩
  · intro c hdev htest
    rcases List.mem_filter.mp hdev with ⟨_, h1⟩
    rcases List.mem_filter.mp htest with ⟨_, h2⟩
    rw [h1] at h2
    simp at h2
  · intro c
    constructor
    · intro hc
      by_cases hd : (devSet cfg).contains c = true
      · exact Or.inl (List.mem_filter.mpr ⟨hc, hd⟩)
      · have hd2 : (devSet cfg).contains c = false := by
          cases hcc : (devSet cfg).contains c
          · rfl
          · exact absurd hcc hd
        exact Or.inr (List.mem_filter.mpr ⟨hc, by rw [hd2]; rfl⟩)
    · intro hc
      rcases hc with h | h
      · exact List.mem_of_mem_filter h
      · exact List.mem_of_mem_filter h
  · intro c hc
    constructor
    · intro hd
      exact List.mem_filter.mpr ⟨hc, hd⟩
    · intro hd
      exact List.mem_filter.mpr ⟨hc, by rw [hd]; rfl⟩
  · intro h
    constructor
    · simp [devCases, devSet, h, List.filter_eq_nil_iff]
    · simp [testCases, devSet, h]

theorem partition_disjoint_cover_witness :
    "case1" ∈ cfgW.cases ∧ ("case1" ∈ devCases cfgW ∨ "case1" ∈ testCases cfgW) :=
  ⟨by decide, ((partition_disjoint_cover cfgW).2.1 "case1").mp (by decide)⟩

/-- C4: the Score Normalizer maps a Success through the configuration's
norm_score and norm_time, and maps every non-success Case Result to the
sentinel normalized score 0 while carrying its failure reason unchanged. -/
theorem normalizer_contract (cfg : EvalConfig) :
    (∀ s t, normalizeResult cfg (CaseResult.Success s t) =
      ⟨cfg.norm_score s, cfg.norm_time t, none⟩) ∧
    (∀ r, r.isSuccess = false →
      (normalizeResult cfg r).score = 0 ∧
      (normalizeResult cfg r).time = 0 ∧
      (normalizeResult cfg r).error = r.reason) := by
  refine ⟨fun s t => rfl, ?_⟩
  intro r hr
  cases r with
  | Success s t => simp [CaseResult.isSuccess] at hr
  | InvalidOutput m => exact ⟨rfl, rfl, rfl⟩
  | RuntimeFailure m => exact ⟨rfl, rfl, rfl⟩
  | Timeout => exact ⟨rfl, rfl, rfl⟩

theorem normalizer_contract_witness :
    (CaseResult.Timeout).isSuccess = false ∧
      (normalizeResult cfgW CaseResult.Timeout).score = 0 ∧
      (normalizeResult cfgW CaseResult.Timeout).time = 0 ∧
      (normalizeResult cfgW CaseResult.Timeout).error = CaseResult.Timeout.reason :=
  ⟨rfl, (normalizer_contract cfgW).2 CaseResult.Timeout rfl⟩

/-- C5: evaluation is deterministic in its inputs — whatever completion
order the dispatcher produces (any permutation of the configured cases),
the resulting overall, dev and test scores (and the two feedback texts)
are identical. -/
theorem evaluate_deterministic (cfg : EvalConfig) (run : String → CaseResult)
    (o1 o2 : List String) (h1 : o1.Perm cfg.cases) (h2 : o2.Perm cfg.cases) :
    (evaluateWithOrder cfg run o1).score = (evaluateWithOrder cfg run o2).score ∧
    (evaluateWithOrder cfg run o1).dev_score = (evaluateWithOrder cfg run o2).dev_score ∧
    (evaluateWithOrder cfg run o1).test_score = (evaluateWithOrder cfg run o2).test_score ∧
    (evaluateWithOrder cfg run o1).dev_feedback = (evaluateWithOrder cfg run o2).dev_feedback ∧
    (evaluateWithOrder cfg run o1).test_feedback = (evaluateWithOrder cfg run o2).test_feedback := by
  have hmap : ∀ (o : List String), o.Perm cfg.cases → ∀ (l : List String),
      (∀ c ∈ l, c ∈ cfg.cases) →
      (l.map (fun c => (resOf (resultsFor cfg run o) c).score) =
        l.map (fun c => (normalizeResult cfg (run c)).score)) ∧
      (l.map (fun c => caseLine cfg.feedback_length c (resOf (resultsFor cfg run o) c)) =
        l.map (fun c => caseLine cfg.feedback_length c (normalizeResult cfg (run c)))) := by
    intro o ho l hl
    constructor
    · exact List.map_congr_left (fun c hc => by rw [resOf_perm cfg run ho (hl c hc)])
    · exact List.map_congr_left (fun c hc => by rw [resOf_perm cfg run ho (hl c hc)])
  have hdev : ∀ c ∈ devCases cfg, c ∈ cfg.cases := fun c hc => List.mem_of_mem_filter hc
  have htst : ∀ c ∈ testCases cfg, c ∈ cfg.cases := fun c hc => List.mem_of_mem_filter hc
  refine ⟨?_, ?_, ?_, ?_, ?_⟩
  · show meanScore ((testCases cfg).map _) = meanScore ((testCases cfg).map _)
    rw [(hmap o1 h1 (testCases cfg) htst).1, (hmap o2 h2 (testCases cfg) htst).1]
  · show meanScore ((devCases cfg).map _) = meanScore ((devCases cfg).map _)
    rw [(hmap o1 h1 (devCases cfg) hdev).1, (hmap o2 h2 (devCases cfg) hdev).1]
  · show meanScore ((testCases cfg).map _) = meanScore ((testCases cfg).map _)
    rw [(hmap o1 h1 (testCases cfg) htst).1, (hmap o2 h2 (testCases cfg) htst).1]
  · show String.intercalate "\n" ((devCases cfg).map _) =
      String.intercalate "\n" ((devCases cfg).map _)
    rw [(hmap o1 h1 (devCases cfg) hdev).2, (hmap o2 h2 (devCases cfg) hdev).2]
  · show String.intercalate "\n" ((testCases cfg).map _) =
      String.intercalate "\n" ((testCases cfg).map _)
    rw [(hmap o1 h1 (testCases cfg) htst).2, (hmap o2 h2 (testCases cfg) htst).2]

theorem evaluate_deterministic_witness :
    cfgW.cases.Perm cfgW.cases ∧
      (["case3", "case2", "case1"] : List String).Perm cfgW.cases ∧
      (evaluateWithOrder cfgW runW cfgW.cases).score =
        (evaluateWithOrder cfgW runW ["case3", "case2", "case1"]).score :=
  ⟨List.Perm.refl _, by decide,
    (evaluate_deterministic cfgW runW cfgW.cases ["case3", "case2", "case1"]
      (List.Perm.refl _) (by decide)).1⟩

/-- C6: for every failing case the composer attaches a message of length
at most feedback_length, truncating deterministically by keeping the first
feedback_length characters; the dev and test feedback texts are
concatenations of per-case lines each carrying such a bounded message, so
no case overflows the bound however long the whole text is. -/
theorem feedback_truncation (n : Nat) (r : Normalized) (e : String)
    (he : r.error = some e) :
    (caseErrText n r).length ≤ n ∧
    (caseErrText n r).data = e.data.take n ∧
    (caseErrText n r).data <+: e.data ∧
    (∀ r2 e2, r2.error = some e2 → e2 = e → caseErrText n r2 = caseErrText n r) ∧
    (∀ cfg results, cfg.feedback_length = n →
      (composeFeedback cfg results).dev_feedback =
        String.intercalate "\n"
          ((devCases cfg).map (fun c => caseLine n c (resOf results c))) ∧
      (composeFeedback cfg results).test_feedback =
        String.intercalate "\n"
          ((testCases cfg).map (fun c => caseLine n c (resOf results c)))) := by
  have hce : caseErrText n r = truncateMsg n e := by simp [caseErrText, he]
  refine ⟨?_, ?_, ?_, ?_, ?_⟩
  · rw [hce]
    show (e.data.take n).length ≤ n
    rw [List.length_take]
    exact Nat.min_le_left _ _
  · rw [hce]; rfl
  · rw [hce]
    exact List.take_prefix n e.data
  · intro r2 e2 h2 he2
    subst he2
    simp [caseErrText, h2, he]
  · intro cfg results hn
    subst hn
    exact ⟨rfl, rfl⟩

def normW : Normalized := ⟨0, 0, some "long failure message"⟩

theorem feedback_truncation_witness :
    normW.error = some "long failure message" ∧
      (caseErrText 4 normW).length ≤ 4 ∧
      (caseErrText 4 normW).data = "long failure message".data.take 4 :=
  ⟨rfl, (feedback_truncation 4 normW "long failure message" rfl).1,
    (feedback_truncation 4 normW "long failure message" rfl).2.1⟩

/-- C7: for a config module that does not define norm_score (norm_time),
both get_data and get_new_data install the identity as the Data record's
norm_score (norm_time); when get_dev is undefined the installed get_dev
returns None. -/
theorem config_defaults_identity (task src_dir data_dir : String)
    (fk : Option (List String)) (env : TaskEnv) :
    (env.norm_score = none → ∀ x,
      (get_data task src_dir env).norm_score x = x ∧
      (get_new_data task src_dir data_dir fk env).norm_score x = x) ∧
    (env.norm_time = none → ∀ x,
      (get_data task src_dir env).norm_time x = x ∧
      (get_new_data task src_dir data_dir fk env).norm_time x = x) ∧
    (env.get_dev = none →
      (get_data task src_dir env).get_dev () = none ∧
      (get_new_data task src_dir data_dir fk env).get_dev () = none) := by
  refine ⟨?_, ?_, ?_⟩
  · intro h x
    exact ⟨by simp [get_data, h], by simp [get_new_data, h]⟩
  · intro h x
    exact ⟨by simp [get_data, h], by simp [get_new_data, h]⟩
  · intro h
    exact ⟨by simp [get_data, h], by simp [get_new_data, h]⟩

def envW : TaskEnv :=
  { load_data := fun _ => ()
    DESCRIPTION := "desc"
    solve_template := "def solve(**kwargs):"
    norm_score := none
    norm_time := none
    get_dev := none
    listdir := ["a.py", "case2", "case1", "__pycache__"]
    files := [["sub", "case2"], ["case1"], ["a.py"]]
    rootParts := ["data", "TSP"] }

theorem config_defaults_identity_witness :
    envW.norm_score = none ∧ envW.norm_time = none ∧ envW.get_dev = none ∧
      (get_data "TSP" "data" envW).norm_score 7 = 7 ∧
      (get_new_data "TSP" "data" "data" none envW).norm_time 5 = 5 ∧
      (get_data "TSP" "data" envW).get_dev () = none :=
  ⟨rfl, rfl, rfl,
    ((config_defaults_identity "TSP" "data" "data" none envW).1 rfl 7).1,
    ((config_defaults_identity "TSP" "data" "data" none envW).2.1 rfl 5).2,
    ((config_defaults_identity "TSP" "data" "data" none envW).2.2 rfl).1⟩

theorem keepNewTestCase_eq_true (rootParts fkl rel : List String) :
    keepNewTestCase rootParts fkl rel = true ↔
      pathName rel ≠ "__pycache__" ∧
      pyEndsWith (pathName rel) ".py" = false ∧
      (∀ part ∈ rootParts ++ rel,
        pyEndsWith part "_sol" = false ∧ pyEndsWith part "_par" = false) ∧
      (∀ k ∈ fkl, containsSub (posixPath (rootParts ++ rel)) k = false) := by
  simp only [keepNewTestCase, Bool.and_eq_true, Bool.not_eq_true', bne_iff_ne,
    List.any_eq_false, Bool.not_eq_true, Bool.or_eq_false_iff]
  tauto

/-- C8 (amended): list_test_cases returns, in sorted order, exactly the
directory entries that neither end in ".py" nor equal "__pycache__"; and
list_new_test_cases returns, in sorted order, the root-relative paths of
exactly those files under the given path that are not named "__pycache__",
do not end in ".py", have no component of their full path (the given
path's own components included) ending in "_sol" or "_par", and whose full
path contains no filter_key string. -/
theorem listing_ordered_exact (entries : List String) (rootParts : List String)
    (files : List (List String)) (fk : Option (List String)) :
    (list_test_cases entries).Pairwise (strLe · ·) ∧
    (∀ x, x ∈ list_test_cases entries ↔
      x ∈ entries ∧ ¬(pyEndsWith x ".py" = true ∨ x = "__pycache__")) ∧
    (list_test_cases entries).Perm
      (entries.filter (fun f => !(pyEndsWith f ".py" || f == "__pycache__"))) ∧
    (list_new_test_cases rootParts files fk).Pairwise (strLe · ·) ∧
    (∀ s, s ∈ list_new_test_cases rootParts files fk ↔
      ∃ rel ∈ files, s = posixPath rel ∧
        pathName rel ≠ "__pycache__" ∧
        pyEndsWith (pathName rel) ".py" = false ∧
        (∀ part ∈ rootParts ++ rel,
          pyEndsWith part "_sol" = false ∧ pyEndsWith part "_par" = false) ∧
        (∀ k ∈ fk.getD [], containsSub (posixPath (rootParts ++ rel)) k = false)) := by
  refine ⟨sortStrings_pairwise _, ?_, sortStrings_perm _, sortStrings_pairwise _, ?_⟩
  · intro x
    rw [list_test_cases, mem_sortStrings, List.mem_filter]
    constructor
    · rintro ⟨hx, hpred⟩
      refine ⟨hx, ?_⟩
      simp only [Bool.not_eq_true', Bool.or_eq_false_iff] at hpred
      rcases hpred with ⟨h1, h2⟩
      rintro (h | h)
      · rw [h] at h1; cases h1
      · rw [h] at h2; simp at h2
    · rintro ⟨hx, hpred⟩
      refine ⟨hx, ?_⟩
      simp only [Bool.not_eq_true', Bool.or_eq_false_iff]
      constructor
      · cases hpe : pyEndsWith x ".py"
        · rfl
        · exact absurd (Or.inl hpe) hpred
      · cases hq : x == "__pycache__"
        · rfl
        · exact absurd (Or.inr (by simpa using hq)) hpred
  · intro s
    rw [list_new_test_cases, mem_sortStrings, List.mem_map]
    constructor
    · rintro ⟨rel, hrel, hs⟩
      rcases List.mem_filter.mp hrel with ⟨hmem, hkeep⟩
      exact ⟨rel, hmem, hs.symm, (keepNewTestCase_eq_true rootParts _ rel).mp hkeep⟩
    · rintro ⟨rel, hmem, hs, hcond⟩
      exact ⟨rel, List.mem_filter.mpr
        ⟨hmem, (keepNewTestCase_eq_true rootParts _ rel).mpr hcond⟩, hs.symm⟩

/-- The per-file condition of the claim sentence for list_new_test_cases,
written exactly as the claim states it (no exclusion of files named
"__pycache__"), for comparison with the implemented filter
keepNewTestCase. -/
def claimedNewKeep (rootParts : List String) (filter_key : List String)
    (relParts : List String) : Bool :=
  !pyEndsWith (pathName relParts) ".py"
    && !(rootParts ++ relParts).any (fun part => pyEndsWith part "_sol" || pyEndsWith part "_par")
    && !filter_key.any (fun k => containsSub (posixPath (rootParts ++ relParts)) k)

/-- C8 counterexample: a file literally named "__pycache__" meets every
condition the claim lists for list_new_test_cases, yet the function omits
it, because the source also filters out that name. -/
theorem listing_claim_counterexample :
    claimedNewKeep [] [] ["__pycache__"] = true ∧
      posixPath ["__pycache__"] = "__pycache__" ∧
      "__pycache__" ∉ list_new_test_cases [] [["__pycache__"]] none := by
  refine ⟨by decide, by decide, by decide⟩

theorem listing_ordered_exact_witness :
    ("case1" ∈ ["a.py", "case2", "case1", "__pycache__"] ∧
        ¬(pyEndsWith "case1" ".py" = true ∨ "case1" = "__pycache__")) ∧
      "case1" ∈ list_test_cases ["a.py", "case2", "case1", "__pycache__"] ∧
      "sub/case2" ∈ list_new_test_cases ["data", "TSP"] [["sub", "case2"], ["a.py"]] none :=
  ⟨⟨by decide, by decide⟩,
    ((listing_ordered_exact ["a.py", "case2", "case1", "__pycache__"] ["data", "TSP"]
        [["sub", "case2"], ["a.py"]] none).2.1 "case1").mpr ⟨by decide, by decide⟩,
    ((listing_ordered_exact ["a.py", "case2", "case1", "__pycache__"] ["data", "TSP"]
        [["sub", "case2"], ["a.py"]] none).2.2.2.2 "sub/case2").mpr
      ⟨["sub", "case2"], by decide, by decide, by decide, by decide, by decide, by decide⟩⟩

/-- C9 counterexample: with a problem outside TASK_LIST but `--code ""`
(and likewise `--code` absent), evaluate_code.py takes the `if not
args.code:` exit — status 1 with the missing-code error and no listing of
the available problems — so the unqualified claim that both scripts print
the available-problem listing for every such invocation is false. -/
theorem unknown_problem_claim_counterexample :
    "Knapsack with conflicts" ∉ TASK_LIST ∧
      evaluate_code_main ⟨"Knapsack with conflicts", some "", none, 0⟩
          (fun _ => none) = ScriptStep.exitMissingCode ∧
      evaluate_code_main ⟨"Knapsack with conflicts", none, none, 0⟩
          (fun _ => none) = ScriptStep.exitMissingCode ∧
      evaluate_code_main ⟨"Knapsack with conflicts", some "", none, 0⟩
          (fun _ => none) ≠ ScriptStep.exitUnknownProblem TASK_LIST := by
  refine ⟨by decide, by decide, by decide, by decide⟩

/-- C9 (amended): the supported problems form the static enumeration
TASK_LIST; for any problem argument not in TASK_LIST, get_problem.py
always, and evaluate_code.py whenever a non-empty code argument was
supplied, print the available-problem error and exit with status 1 before
any problem data is loaded; with the code argument absent or empty,
evaluate_code.py still exits with status 1 before loading, but with the
missing-code error instead of the listing — in every case the evaluation
step is never reached for such a problem. -/
theorem unknown_problem_rejected (p codePath sd : String)
    (out : Option String) (it : Int) (readFile : String → Option String)
    (hp : p ∉ TASK_LIST) (hcp : codePath ≠ "") :
    evaluate_code_main ⟨p, some codePath, out, it⟩ readFile =
      ScriptStep.exitUnknownProblem TASK_LIST ∧
    get_problem_main ⟨sd, some p⟩ = GetProblemStep.exitUnknownProblem TASK_LIST ∧
    (∀ out2 it2 rf,
      evaluate_code_main ⟨p, some "", out2, it2⟩ rf = ScriptStep.exitMissingCode ∧
      evaluate_code_main ⟨p, none, out2, it2⟩ rf = ScriptStep.exitMissingCode) ∧
    (∀ args rf, args.problem = p →
      ∀ q c, evaluate_code_main args rf ≠ ScriptStep.runEvaluation q c) ∧
    TASK_LIST.Nodup := by
  refine ⟨?_, ?_, ?_, ?_, by decide⟩
  · simp [evaluate_code_main, hp, hcp]
  · simp [get_problem_main, hp]
  · intro out2 it2 rf
    exact ⟨by simp [evaluate_code_main], by simp [evaluate_code_main]⟩
  · intro args rf hargs q c
    cases hcode : args.code with
    | none => simp [evaluate_code_main, hcode]
    | some cp =>
      by_cases hcpe : cp = ""
      · simp [evaluate_code_main, hcode, hcpe]
      · simp [evaluate_code_main, hcode, hcpe, hargs, hp]

theorem unknown_problem_rejected_witness :
    "Knapsack with conflicts" ∉ TASK_LIST ∧ ("sol.py" : String) ≠ "" ∧
      evaluate_code_main ⟨"Knapsack with conflicts", some "sol.py", none, 0⟩
          (fun _ => none) =
        ScriptStep.exitUnknownProblem TASK_LIST ∧
      get_problem_main ⟨"data/CO-Bench", some "Knapsack with conflicts"⟩ =
        GetProblemStep.exitUnknownProblem TASK_LIST :=
  ⟨by decide, by decide,
    (unknown_problem_rejected "Knapsack with conflicts" "sol.py" "data/CO-Bench"
      none 0 (fun _ => none) (by decide) (by decide)).1,
    (unknown_problem_rejected "Knapsack with conflicts" "sol.py" "data/CO-Bench"
      none 0 (fun _ => none) (by decide) (by decide)).2.1⟩

/-- C10: the argument parser of get_problem.py defines exactly the
attributes src_dir and problem, so the except handler, which reads
args.problem_name, raises AttributeError instead of printing its error
message and exiting with status 1. -/
theorem handler_attribute_error :
    get_problem_arg_dests = ["src_dir", "problem"] ∧
    get_problem_handler_attr ∉ get_problem_arg_dests ∧
    exceptHandlerOutcome get_problem_arg_dests get_problem_handler_attr =
      HandlerOutcome.raisesAttributeError "problem_name" := by
  refine ⟨by decide, by decide, by decide⟩
